import Mathlib

/-!
Shallow embedding of the people-counting core of `app.py`
(`MediaPipePeopleCounter` and the multi-door sums of `LectureHallMonitor`).

Positions are integer pixel coordinates (the code converts MediaPipe's
normalized landmarks with `int(...)`).  Python's `np.sqrt` distance
comparisons are performed here on squared distances: the square root is
strictly monotone on nonnegative reals, so `sqrt a < sqrt b ↔ a < b` and
`sqrt a < c ↔ a < c^2` for the nonnegative quantities the code compares.
-/

namespace FireSafety

/-- Side of the counting line; the code's `"top"` / `"bottom"` strings
(`get_side`, app.py lines 71-73). -/
inductive Side where
  | top
  | bottom
deriving DecidableEq, Repr

/-- A detection position `(x, y)` in pixel coordinates. -/
abbrev Pos := Int × Int

/-- One entry of `self.tracked_people` (app.py line 47):
`{'position', 'last_side', 'frames_since_crossing', 'frames_not_seen'}`. -/
structure Track where
  position : Pos
  lastSide : Side
  sinceCross : Nat
  notSeen : Nat
deriving DecidableEq, Repr

/-- Per-door configuration (app.py `__init__`, lines 23-58): the entry line,
the declared direction string, and the four numeric parameters of lines
52-55.  `direction` and `minDistanceFromLine` are stored by `__init__` but
never read by the tracking logic. -/
structure Config where
  entryLine : Int
  direction : String
  matchDistance : Nat
  debounceFrames : Nat
  minDistanceFromLine : Nat
  maxFramesNotSeen : Nat

/-- The constants hard-coded in `__init__` for every door
(entry_line 240 from DOOR_CONFIGS, lines 52-55 for the rest). -/
def codeConfig : Config :=
  { entryLine := 240
    direction := "horizontal"
    matchDistance := 80
    debounceFrames := 15
    minDistanceFromLine := 30
    maxFramesNotSeen := 150 }

/-- Mutable counter state of one `MediaPipePeopleCounter`: `entries`,
`exits`, the `tracked_people` dict (as an association list in dict
insertion order) and `next_id`. -/
structure CounterState where
  entries : Nat
  exits : Nat
  tracked : List (Nat × Track)
  nextId : Nat
deriving DecidableEq, Repr

/-- The state right after `__init__`: zero counters, no tracks, `next_id = 0`. -/
def initialState : CounterState :=
  { entries := 0, exits := 0, tracked := [], nextId := 0 }

/-- Kind of a crossing notification (`person_dict['crossing']`). -/
inductive Kind where
  | entry
  | exit
deriving DecidableEq, Repr

/-- A crossing event: track id together with its kind. -/
abbrev Event := Nat × Kind

/-- `get_side` (app.py lines 71-73): `"bottom" if y > self.entry_line else "top"`. -/
def getSide (entryLine : Int) (y : Int) : Side :=
  if y > entryLine then Side.bottom else Side.top

/-- Squared Euclidean distance `(pos[0]-old[0])**2 + (pos[1]-old[1])**2`
(app.py line 103, before the monotone `np.sqrt`). -/
def dist2 (p q : Pos) : Int :=
  (p.1 - q.1) ^ 2 + (p.2 - q.2) ^ 2

/-- One iteration of the nearest-track loop (app.py lines 101-106):
`if dist < min_dist: min_dist = dist; matched_id = person_id`. -/
def matchStep (p : Pos) (acc : Int × Option (Nat × Track)) (e : Nat × Track) :
    Int × Option (Nat × Track) :=
  if dist2 p e.2.position < acc.1 then (dist2 p e.2.position, some e) else acc

/-- The nearest-track loop of `update_tracking` (app.py lines 97-106):
running minimum starts at `MATCH_DISTANCE` (squared here), each tracked
person strictly closer than the current minimum becomes the match.  The
matched entry's data is returned with its id, standing for the later dict
lookups `self.tracked_people[matched_id]` (dict keys are unique). -/
def findMatch (tracked : List (Nat × Track)) (p : Pos) (matchDistance : Nat) :
    Option (Nat × Track) :=
  (tracked.foldl (matchStep p) (((matchDistance : Int)) ^ 2, none)).2

/-- Write-back into the `tracked_people` dict at key `id`
(`self.tracked_people[matched_id][...] = ...`). -/
def setTrack (l : List (Nat × Track)) (id : Nat) (t : Track) : List (Nat × Track) :=
  l.map fun e => if e.1 = id then (id, t) else e

/-- The per-tick ageing loop (app.py lines 90-93): every tracked person's
`frames_since_crossing` and `frames_not_seen` are incremented by 1. -/
def ageTracks (l : List (Nat × Track)) : List (Nat × Track) :=
  l.map fun e =>
    (e.1, { e.2 with sinceCross := e.2.sinceCross + 1, notSeen := e.2.notSeen + 1 })

/-- Accumulator of the detection loop: the counter state, `current_ids`,
and the crossing events emitted so far this tick. -/
abbrev TickAcc := CounterState × List Nat × List Event

/-- Body of the detection loop of `update_tracking` (app.py lines 95-155),
parameterised by exactly the configuration attributes that the code reads
here (`entry_line`, `MATCH_DISTANCE`, `DEBOUNCE_FRAMES`).

Matched branch (lines 109-143): reset `frames_not_seen`, evaluate the
debounced crossing rule, then unconditionally store the new position and
side.  The inner `if/elif` of lines 126-135 is mirrored including its
(unreachable, two-sided) fall-through.  New-person branch (lines 144-155):
append a track with the next id, the side of the current position, the
`frames_since_crossing = 999` sentinel and `frames_not_seen = 0`. -/
def processDetection (entryLine : Int) (matchDistance debounceFrames : Nat)
    (acc : TickAcc) (p : Pos) : TickAcc :=
  let st := acc.1
  let ids := acc.2.1
  let evs := acc.2.2
  match findMatch st.tracked p matchDistance with
  | some (id, t) =>
      let newSide := getSide entryLine p.2
      if t.lastSide ≠ newSide ∧ debounceFrames ≤ t.sinceCross then
        if t.lastSide = Side.top ∧ newSide = Side.bottom then
          ({ st with entries := st.entries + 1,
                     tracked := setTrack st.tracked id ⟨p, newSide, 0, 0⟩ },
           id :: ids, evs ++ [(id, Kind.entry)])
        else if t.lastSide = Side.bottom ∧ newSide = Side.top then
          ({ st with exits := st.exits + 1,
                     tracked := setTrack st.tracked id ⟨p, newSide, 0, 0⟩ },
           id :: ids, evs ++ [(id, Kind.exit)])
        else
          ({ st with tracked := setTrack st.tracked id ⟨p, newSide, t.sinceCross, 0⟩ },
           id :: ids, evs)
      else
        ({ st with tracked := setTrack st.tracked id ⟨p, newSide, t.sinceCross, 0⟩ },
         id :: ids, evs)
  | none =>
      ({ st with
           tracked := st.tracked ++ [(st.nextId, ⟨p, getSide entryLine p.2, 999, 0⟩)],
           nextId := st.nextId + 1 },
       st.nextId :: ids, evs)

/-- The whole of `update_tracking` (app.py lines 86-164) on the exact
configuration attributes it reads: age all tracks, run the detection loop,
then drop every track that is neither in `current_ids` nor has
`frames_not_seen < MAX_FRAMES_NOT_SEEN` (lines 157-164).  Returns the new
state together with the tick's crossing events in emission order. -/
def updateTrackingCore (entryLine : Int)
    (matchDistance debounceFrames maxFramesNotSeen : Nat)
    (st : CounterState) (ds : List Pos) : CounterState × List Event :=
  let start : TickAcc := ({ st with tracked := ageTracks st.tracked }, [], [])
  let r := ds.foldl (processDetection entryLine matchDistance debounceFrames) start
  ({ r.1 with
       tracked :=
         r.1.tracked.filter fun e =>
           decide (e.1 ∈ r.2.1 ∨ e.2.notSeen < maxFramesNotSeen) },
   r.2.2)

/-- `update_tracking` of a configured door: the code reads exactly
`entry_line`, `MATCH_DISTANCE`, `DEBOUNCE_FRAMES` and `MAX_FRAMES_NOT_SEEN`
of its configuration (never `direction` or `MIN_DISTANCE_FROM_LINE`). -/
def updateTracking (c : Config) (st : CounterState) (ds : List Pos) :
    CounterState × List Event :=
  updateTrackingCore c.entryLine c.matchDistance c.debounceFrames c.maxFramesNotSeen st ds

/-- The detection loop of one `update_tracking` call before the expiry
sweep: ageing followed by the fold of `processDetection` over the tick's
detections (app.py lines 90-155). -/
def tickFold (c : Config) (st : CounterState) (ds : List Pos) : TickAcc :=
  ds.foldl (processDetection c.entryLine c.matchDistance c.debounceFrames)
    ({ st with tracked := ageTracks st.tracked }, [], [])

/-- The tick's `current_ids` set (app.py lines 88, 111, 147): the ids of
every track matched to a detection this tick together with the ids of every
track created this tick.  An existing track goes unmatched on a tick
exactly when its id is not in this set. -/
def tickCurrentIds (c : Config) (st : CounterState) (ds : List Pos) : List Nat :=
  (tickFold c st ds).2.1

/-- `update_tracking` is the detection loop followed by the expiry sweep of
lines 157-164, keeping tracks in `current_ids` or under the
`MAX_FRAMES_NOT_SEEN` bound. -/
theorem updateTracking_eq_tickFold (c : Config) (st : CounterState) (ds : List Pos) :
    updateTracking c st ds
      = ({ (tickFold c st ds).1 with
             tracked := (tickFold c st ds).1.tracked.filter
               (fun e => decide (e.1 ∈ tickCurrentIds c st ds ∨
                 e.2.notSeen < c.maxFramesNotSeen)) },
         (tickFold c st ds).2.2) := rfl

/-- Iterated tick processing: one `update_tracking` call per element of
`inputs` (each element is the tick's detection list). -/
def runTicks (c : Config) (st : CounterState) (inputs : List (List Pos)) : CounterState :=
  inputs.foldl (fun s ds => (updateTracking c s ds).1) st

/-- Tick processing that also concatenates every emitted crossing event. -/
def runTrace (c : Config) (st : CounterState) (inputs : List (List Pos)) :
    CounterState × List Event :=
  inputs.foldl
    (fun a ds =>
      let r := updateTracking c a.1 ds
      (r.1, a.2 ++ r.2))
    (st, [])

/-- `total_people = self.entries - self.exits` (app.py line 256):
occupancy is derived from the two counters, never stored. -/
def occupancy (st : CounterState) : Int :=
  (st.entries : Int) - (st.exits : Int)

/-- `total_in = sum(c.entries for c in self.counters.values())` (app.py line 356). -/
def totalEntries (doors : List CounterState) : Nat :=
  (doors.map (fun d => d.entries)).sum

/-- `total_out = sum(c.exits for c in self.counters.values())` (app.py line 357). -/
def totalExits (doors : List CounterState) : Nat :=
  (doors.map (fun d => d.exits)).sum

/-- `occupancy = total_in - total_out` (app.py line 358). -/
def totalOccupancy (doors : List CounterState) : Int :=
  (totalEntries doors : Int) - (totalExits doors : Int)

/-- `reset` (app.py lines 292-297): zero the counters, clear the dict,
set `next_id = 0`. -/
def resetCounter (st : CounterState) : CounterState :=
  { st with entries := 0, exits := 0, tracked := [], nextId := 0 }

/-- First track stored under key `id` in the association list; total
lookup mirroring Python dict indexing (dict keys are unique). -/
def lookupTrack (l : List (Nat × Track)) (id : Nat) : Option Track :=
  match l with
  | [] => none
  | e :: rest => if e.1 = id then some e.2 else lookupTrack rest id

/-! ### Helper lemmas about the nearest-track search -/

theorem matchStep_fold_spec (p : Pos) (l : List (Nat × Track)) (m : Int)
    (o : Option (Nat × Track)) :
    (∀ e ∈ l, (l.foldl (matchStep p) (m, o)).1 ≤ dist2 p e.2.position) ∧
    (l.foldl (matchStep p) (m, o)).1 ≤ m ∧
    (l.foldl (matchStep p) (m, o) = (m, o) ∨
      ∃ id t, (id, t) ∈ l ∧
        l.foldl (matchStep p) (m, o) = (dist2 p t.position, some (id, t)) ∧
        dist2 p t.position < m) := by
  induction l generalizing m o with
  | nil => exact ⟨by simp, le_refl m, Or.inl rfl⟩
  | cons e l ih =>
    by_cases h : dist2 p e.2.position < m
    · have hstep : matchStep p (m, o) e = (dist2 p e.2.position, some e) := by
        simp [matchStep, h]
      obtain ⟨ih1, ih2, ih3⟩ := ih (dist2 p e.2.position) (some e)
      refine ⟨?_, ?_, ?_⟩
      · intro f hf
        rcases List.mem_cons.mp hf with hf | hf
        · subst hf
          simpa [hstep] using ih2
        · simpa [hstep] using ih1 f hf
      · calc (List.foldl (matchStep p) (matchStep p (m, o) e) l).1
            ≤ dist2 p e.2.position := by simpa [hstep] using ih2
          _ ≤ m := le_of_lt h
      · rcases ih3 with h3 | ⟨id, t, hmem, heq, hlt⟩
        · exact Or.inr ⟨e.1, e.2, List.mem_cons_self e l, by simp [hstep, h3], h⟩
        · exact Or.inr ⟨id, t, List.mem_cons_of_mem e hmem, by simp [hstep, heq],
            lt_trans hlt h⟩
    · have hstep : matchStep p (m, o) e = (m, o) := by
        simp [matchStep, h]
      obtain ⟨ih1, ih2, ih3⟩ := ih m o
      refine ⟨?_, by simpa [hstep] using ih2, ?_⟩
      · intro f hf
        rcases List.mem_cons.mp hf with hf | hf
        · subst hf
          exact le_trans (by simpa [hstep] using ih2) (le_of_not_lt h)
        · simpa [hstep] using ih1 f hf
      · rcases ih3 with h3 | ⟨id, t, hmem, heq, hlt⟩
        · exact Or.inl (by simp [hstep, h3])
        · exact Or.inr ⟨id, t, List.mem_cons_of_mem e hmem, by simp [hstep, heq], hlt⟩

theorem findMatch_some_spec {tracked : List (Nat × Track)} {p : Pos}
    {matchDistance : Nat} {id : Nat} {t : Track}
    (h : findMatch tracked p matchDistance = some (id, t)) :
    (id, t) ∈ tracked ∧
    dist2 p t.position < ((matchDistance : Int)) ^ 2 ∧
    ∀ e ∈ tracked, dist2 p t.position ≤ dist2 p e.2.position := by
  obtain ⟨h1, _h2, h3⟩ :=
    matchStep_fold_spec p tracked (((matchDistance : Int)) ^ 2) none
  rcases h3 with h3 | ⟨id', t', hmem, heq, hlt⟩
  · rw [findMatch, h3] at h
    exact absurd h (by simp)
  · rw [findMatch, heq] at h
    obtain ⟨rfl, rfl⟩ : id' = id ∧ t' = t := by
      simpa [Prod.ext_iff] using h
    refine ⟨hmem, hlt, fun e he => ?_⟩
    have := h1 e he
    rwa [heq] at this

theorem findMatch_none_spec {tracked : List (Nat × Track)} {p : Pos}
    {matchDistance : Nat}
    (h : findMatch tracked p matchDistance = none) :
    ∀ e ∈ tracked, ((matchDistance : Int)) ^ 2 ≤ dist2 p e.2.position := by
  obtain ⟨h1, _h2, h3⟩ :=
    matchStep_fold_spec p tracked (((matchDistance : Int)) ^ 2) none
  rcases h3 with h3 | ⟨id', t', _hmem, heq, _hlt⟩
  · intro e he
    have := h1 e he
    rwa [h3] at this
  · rw [findMatch, heq] at h
    exact absurd h (by simp)

/-! ### Helper lemmas about the registry write-back and lookup -/

theorem setTrack_keys (l : List (Nat × Track)) (id : Nat) (t : Track) :
    (setTrack l id t).map Prod.fst = l.map Prod.fst := by
  induction l with
  | nil => rfl
  | cons e l ih =>
    show ((if e.1 = id then (id, t) else e) :: setTrack l id t).map Prod.fst
        = e.1 :: l.map Prod.fst
    by_cases h : e.1 = id
    · rw [if_pos h, List.map_cons, ih, h]
    · rw [if_neg h, List.map_cons, ih]

theorem mem_setTrack {l : List (Nat × Track)} {id : Nat} {t : Track}
    {e : Nat × Track} (h : e ∈ setTrack l id t) :
    (e ∈ l ∧ e.1 ≠ id) ∨ e = (id, t) := by
  rcases List.mem_map.mp h with ⟨f, hf, hfe⟩
  by_cases hk : f.1 = id
  · right
    rw [← hfe, if_pos hk]
  · left
    rw [← hfe, if_neg hk]
    exact ⟨hf, hk⟩

theorem setTrack_mem_of_mem {l : List (Nat × Track)} {id : Nat} {u : Track}
    (t : Track) (h : (id, u) ∈ l) : (id, t) ∈ setTrack l id t := by
  have := List.mem_map_of_mem (fun e => if e.1 = id then (id, t) else e) h
  simpa [setTrack] using this

theorem lookupTrack_eq_none {l : List (Nat × Track)} {id : Nat} :
    lookupTrack l id = none ↔ id ∉ l.map Prod.fst := by
  induction l with
  | nil => simp [lookupTrack]
  | cons e l ih =>
    by_cases h : e.1 = id
    · simp [lookupTrack, h]
    · have hs : lookupTrack (e :: l) id = lookupTrack l id := if_neg h
      rw [hs, ih, List.map_cons]
      constructor
      · intro hn hmem
        rcases List.mem_cons.mp hmem with hmem | hmem
        · exact h hmem.symm
        · exact hn hmem
      · intro hn hmem
        exact hn (List.mem_cons_of_mem _ hmem)

theorem lookupTrack_mem {l : List (Nat × Track)} {id : Nat} {v : Track}
    (h : lookupTrack l id = some v) : (id, v) ∈ l := by
  induction l with
  | nil => exact absurd h (by simp [lookupTrack])
  | cons e l ih =>
    by_cases hk : e.1 = id
    · rw [show lookupTrack (e :: l) id = some e.2 from if_pos hk] at h
      injection h with hv
      refine List.mem_cons.mpr (Or.inl ?_)
      rw [← hk, ← hv]
    · rw [show lookupTrack (e :: l) id = lookupTrack l id from if_neg hk] at h
      exact List.mem_cons_of_mem e (ih h)

theorem mem_lookupTrack {l : List (Nat × Track)} {id : Nat} {v : Track}
    (hnd : (l.map Prod.fst).Nodup) (h : (id, v) ∈ l) :
    lookupTrack l id = some v := by
  induction l with
  | nil => exact absurd h (by simp)
  | cons e l ih =>
    rw [List.map_cons, List.nodup_cons] at hnd
    obtain ⟨hnm, hnd'⟩ := hnd
    rcases List.mem_cons.mp h with h | h
    · have hk : e.1 = id := by rw [← h]
      have hv : e.2 = v := by rw [← h]
      rw [show lookupTrack (e :: l) id = some e.2 from if_pos hk, hv]
    · by_cases hk : e.1 = id
      · exact absurd (hk ▸ List.mem_map.mpr ⟨(id, v), h, rfl⟩) hnm
      · rw [show lookupTrack (e :: l) id = lookupTrack l id from if_neg hk]
        exact ih hnd' h

theorem lookupTrack_age (l : List (Nat × Track)) (id : Nat) :
    lookupTrack (ageTracks l) id
      = (lookupTrack l id).map
          (fun u => { u with sinceCross := u.sinceCross + 1, notSeen := u.notSeen + 1 }) := by
  induction l with
  | nil => rfl
  | cons e l ih =>
    obtain ⟨k, pos, ls, sc, ns⟩ := e
    rw [show ageTracks ((k, ⟨pos, ls, sc, ns⟩) :: l)
        = (k, ⟨pos, ls, sc + 1, ns + 1⟩) :: ageTracks l from rfl]
    by_cases hk : k = id
    · rw [show lookupTrack ((k, (⟨pos, ls, sc + 1, ns + 1⟩ : Track)) :: ageTracks l) id
          = some ⟨pos, ls, sc + 1, ns + 1⟩ from if_pos hk,
        show lookupTrack ((k, (⟨pos, ls, sc, ns⟩ : Track)) :: l) id
          = some ⟨pos, ls, sc, ns⟩ from if_pos hk]
      rfl
    · rw [show lookupTrack ((k, (⟨pos, ls, sc + 1, ns + 1⟩ : Track)) :: ageTracks l) id
          = lookupTrack (ageTracks l) id from if_neg hk,
        show lookupTrack ((k, (⟨pos, ls, sc, ns⟩ : Track)) :: l) id
          = lookupTrack l id from if_neg hk]
      exact ih

theorem setTrack_lookup_other {l : List (Nat × Track)} {j id : Nat}
    (t : Track) (h : j ≠ id) :
    lookupTrack (setTrack l j t) id = lookupTrack l id := by
  induction l with
  | nil => rfl
  | cons e l ih =>
    show lookupTrack ((if e.1 = j then (j, t) else e) :: setTrack l j t) id = _
    by_cases hk : e.1 = j
    · rw [if_pos hk,
        show lookupTrack ((j, t) :: setTrack l j t) id
          = lookupTrack (setTrack l j t) id from if_neg h,
        show lookupTrack (e :: l) id = lookupTrack l id from if_neg (hk ▸ h)]
      exact ih
    · rw [if_neg hk]
      by_cases hk2 : e.1 = id
      · rw [show lookupTrack (e :: setTrack l j t) id = some e.2 from if_pos hk2,
          show lookupTrack (e :: l) id = some e.2 from if_pos hk2]
      · rw [show lookupTrack (e :: setTrack l j t) id
            = lookupTrack (setTrack l j t) id from if_neg hk2,
          show lookupTrack (e :: l) id = lookupTrack l id from if_neg hk2]
        exact ih

theorem lookupTrack_append_single {l : List (Nat × Track)} {n id : Nat}
    (t : Track) (h : n ≠ id) :
    lookupTrack (l ++ [(n, t)]) id = lookupTrack l id := by
  induction l with
  | nil =>
    show lookupTrack [(n, t)] id = none
    exact if_neg h
  | cons e l ih =>
    show lookupTrack (e :: (l ++ [(n, t)])) id = lookupTrack (e :: l) id
    by_cases hk : e.1 = id
    · rw [show lookupTrack (e :: (l ++ [(n, t)])) id = some e.2 from if_pos hk,
        show lookupTrack (e :: l) id = some e.2 from if_pos hk]
    · rw [show lookupTrack (e :: (l ++ [(n, t)])) id
          = lookupTrack (l ++ [(n, t)]) id from if_neg hk,
        show lookupTrack (e :: l) id = lookupTrack l id from if_neg hk]
      exact ih

theorem mem_setTrack_of_ne {l : List (Nat × Track)} {j id : Nat} {u : Track}
    (t : Track) (h : (id, u) ∈ l) (hne : id ≠ j) : (id, u) ∈ setTrack l j t := by
  have := List.mem_map_of_mem (fun e => if e.1 = j then (j, t) else e) h
  simpa [setTrack, hne] using this

theorem lookup_filter_unique {l : List (Nat × Track)} {id : Nat} {v : Track}
    (q : Nat × Track → Bool)
    (hnd : (l.map Prod.fst).Nodup) (h : lookupTrack l id = some v) :
    lookupTrack (l.filter q) id = if q (id, v) = true then some v else none := by
  induction l with
  | nil => exact absurd h (by simp [lookupTrack])
  | cons e l ih =>
    rw [List.map_cons, List.nodup_cons] at hnd
    obtain ⟨hnm, hnd'⟩ := hnd
    rw [List.filter_cons]
    by_cases hk : e.1 = id
    · rw [show lookupTrack (e :: l) id = some e.2 from if_pos hk] at h
      injection h with hv
      have hpair : e = (id, v) := by rw [← hk, ← hv]
      subst hpair
      by_cases hq : q (id, v) = true
      · rw [if_pos hq, if_pos hq]
        exact if_pos rfl
      · rw [if_neg hq, if_neg hq]
        rw [lookupTrack_eq_none]
        intro hmem
        rcases List.mem_map.mp hmem with ⟨f, hf, hfk⟩
        exact hnm (List.mem_map.mpr ⟨f, (List.mem_filter.mp hf).1, hfk⟩)
    · rw [show lookupTrack (e :: l) id = lookupTrack l id from if_neg hk] at h
      by_cases hq : q e = true
      · rw [if_pos hq,
          show lookupTrack (e :: l.filter q) id
            = lookupTrack (l.filter q) id from if_neg hk]
        exact ih hnd' h
      · rw [if_neg hq]
        exact ih hnd' h

theorem mem_ageTracks {l : List (Nat × Track)} {e : Nat × Track}
    (h : e ∈ ageTracks l) :
    ∃ u, (e.1, u) ∈ l ∧
      e.2 = { u with sinceCross := u.sinceCross + 1, notSeen := u.notSeen + 1 } := by
  rcases List.mem_map.mp h with ⟨f, hf, hfe⟩
  exact ⟨f.2, by simpa [← hfe] using hf, by simp [← hfe]⟩

theorem ageTracks_keys (l : List (Nat × Track)) :
    (ageTracks l).map Prod.fst = l.map Prod.fst := by
  simp [ageTracks, List.map_map]

/-! ### Branch characterization of the per-detection step -/

/-- When the detection matches track `(id, t)`, the per-detection step takes
exactly one of three forms: a counted entry, a counted exit, or an update
without counting (no side change, or debounce suppression). -/
theorem processDetection_match_cases (entryLine : Int)
    (matchDistance debounceFrames : Nat) (acc : TickAcc) (p : Pos)
    (id : Nat) (t : Track)
    (hm : findMatch acc.1.tracked p matchDistance = some (id, t)) :
    (processDetection entryLine matchDistance debounceFrames acc p
        = ({ acc.1 with
               entries := acc.1.entries + 1,
               tracked := setTrack acc.1.tracked id ⟨p, getSide entryLine p.2, 0, 0⟩ },
           id :: acc.2.1, acc.2.2 ++ [(id, Kind.entry)]) ∧
       t.lastSide = Side.top ∧ getSide entryLine p.2 = Side.bottom ∧
       debounceFrames ≤ t.sinceCross) ∨
    (processDetection entryLine matchDistance debounceFrames acc p
        = ({ acc.1 with
               exits := acc.1.exits + 1,
               tracked := setTrack acc.1.tracked id ⟨p, getSide entryLine p.2, 0, 0⟩ },
           id :: acc.2.1, acc.2.2 ++ [(id, Kind.exit)]) ∧
       t.lastSide = Side.bottom ∧ getSide entryLine p.2 = Side.top ∧
       debounceFrames ≤ t.sinceCross) ∨
    (processDetection entryLine matchDistance debounceFrames acc p
        = ({ acc.1 with
               tracked := setTrack acc.1.tracked id
                 ⟨p, getSide entryLine p.2, t.sinceCross, 0⟩ },
           id :: acc.2.1, acc.2.2) ∧
       (t.lastSide = getSide entryLine p.2 ∨ t.sinceCross < debounceFrames)) := by
  by_cases hdb : debounceFrames ≤ t.sinceCross
  · cases htl : t.lastSide <;> cases hgs : getSide entryLine p.2
    · refine Or.inr (Or.inr ⟨?_, Or.inl rfl⟩)
      simp [processDetection, hm, htl, hgs]
    · refine Or.inl ⟨?_, rfl, rfl, hdb⟩
      simp [processDetection, hm, htl, hgs, hdb]
    · refine Or.inr (Or.inl ⟨?_, rfl, rfl, hdb⟩)
      simp [processDetection, hm, htl, hgs, hdb]
    · refine Or.inr (Or.inr ⟨?_, Or.inl rfl⟩)
      simp [processDetection, hm, htl, hgs]
  · refine Or.inr (Or.inr ⟨?_, Or.inr (Nat.lt_of_not_le hdb)⟩)
    by_cases hne : t.lastSide = getSide entryLine p.2 <;>
      simp [processDetection, hm, hne, hdb]

/-- When no track is within `MATCH_DISTANCE`, the per-detection step creates
a fresh track under `next_id`. -/
theorem processDetection_none (entryLine : Int)
    (matchDistance debounceFrames : Nat) (acc : TickAcc) (p : Pos)
    (hm : findMatch acc.1.tracked p matchDistance = none) :
    processDetection entryLine matchDistance debounceFrames acc p
      = ({ acc.1 with
             tracked := acc.1.tracked
               ++ [(acc.1.nextId, ⟨p, getSide entryLine p.2, 999, 0⟩)],
             nextId := acc.1.nextId + 1 },
         acc.1.nextId :: acc.2.1, acc.2.2) := by
  simp [processDetection, hm]

/-! ### Freshness of track ids -/

theorem processDetection_step_ids (entryLine : Int)
    (matchDistance debounceFrames : Nat) (acc : TickAcc) (p : Pos) :
    acc.1.nextId ≤ (processDetection entryLine matchDistance debounceFrames acc p).1.nextId ∧
    ∀ e ∈ (processDetection entryLine matchDistance debounceFrames acc p).1.tracked,
      e.1 ∈ acc.1.tracked.map Prod.fst ∨
        (acc.1.nextId ≤ e.1 ∧
         e.1 < (processDetection entryLine matchDistance debounceFrames acc p).1.nextId) := by
  cases hm : findMatch acc.1.tracked p matchDistance with
  | some x =>
    obtain ⟨id, t⟩ := x
    have hmem := (findMatch_some_spec hm).1
    rcases processDetection_match_cases entryLine matchDistance debounceFrames
        acc p id t hm with ⟨heq, _⟩ | ⟨heq, _⟩ | ⟨heq, _⟩ <;>
      · rw [heq]
        refine ⟨le_refl _, fun e he => Or.inl ?_⟩
        rcases mem_setTrack he with ⟨hel, _⟩ | hid
        · exact List.mem_map_of_mem Prod.fst hel
        · rw [hid]
          exact List.mem_map.mpr ⟨(id, t), hmem, rfl⟩
  | none =>
    rw [processDetection_none entryLine matchDistance debounceFrames acc p hm]
    refine ⟨Nat.le_succ _, fun e he => ?_⟩
    rcases List.mem_append.mp he with he | he
    · exact Or.inl (List.mem_map_of_mem Prod.fst he)
    · simp only [List.mem_singleton] at he
      rw [he]
      exact Or.inr ⟨le_refl _, Nat.lt_succ_self _⟩

theorem processDetection_fold_ids (entryLine : Int)
    (matchDistance debounceFrames : Nat) (ds : List Pos) (acc : TickAcc) :
    acc.1.nextId ≤ (ds.foldl (processDetection entryLine matchDistance debounceFrames) acc).1.nextId ∧
    ∀ e ∈ (ds.foldl (processDetection entryLine matchDistance debounceFrames) acc).1.tracked,
      e.1 ∈ acc.1.tracked.map Prod.fst ∨
        (acc.1.nextId ≤ e.1 ∧
         e.1 < (ds.foldl (processDetection entryLine matchDistance debounceFrames) acc).1.nextId) := by
  induction ds generalizing acc with
  | nil => exact ⟨le_refl _, fun e he => Or.inl (List.mem_map_of_mem Prod.fst he)⟩
  | cons p ds ih =>
    obtain ⟨hstep1, hstep2⟩ :=
      processDetection_step_ids entryLine matchDistance debounceFrames acc p
    obtain ⟨ih1, ih2⟩ := ih (processDetection entryLine matchDistance debounceFrames acc p)
    rw [List.foldl_cons]
    refine ⟨le_trans hstep1 ih1, fun e he => ?_⟩
    rcases ih2 e he with hk | ⟨hge, hlt⟩
    · rcases List.mem_map.mp hk with ⟨f, hf, hfk⟩
      rcases hstep2 f hf with hk' | ⟨hge', hlt'⟩
      · exact Or.inl (hfk ▸ hk')
      · exact Or.inr ⟨hfk ▸ hge'.trans (le_of_eq rfl) |>.trans (le_of_eq rfl),
          hfk ▸ lt_of_lt_of_le hlt' ih1⟩
    · exact Or.inr ⟨le_trans hstep1 hge, hlt⟩

theorem updateTracking_ids (c : Config) (st : CounterState) (ds : List Pos) :
    st.nextId ≤ (updateTracking c st ds).1.nextId ∧
    ∀ e ∈ (updateTracking c st ds).1.tracked,
      e.1 ∈ st.tracked.map Prod.fst ∨
        (st.nextId ≤ e.1 ∧ e.1 < (updateTracking c st ds).1.nextId) := by
  obtain ⟨h1, h2⟩ := processDetection_fold_ids c.entryLine c.matchDistance
    c.debounceFrames ds ({ st with tracked := ageTracks st.tracked }, [], [])
  constructor
  · exact h1
  · intro e he
    have he' := List.mem_filter.mp he
    rcases h2 e he'.1 with hk | hfresh
    · rw [ageTracks_keys] at hk
      exact Or.inl hk
    · exact Or.inr hfresh

theorem runTicks_ids_lt (c : Config) (st : CounterState)
    (inputs : List (List Pos))
    (hinv : ∀ e ∈ st.tracked, e.1 < st.nextId) :
    ∀ e ∈ (runTicks c st inputs).tracked, e.1 < (runTicks c st inputs).nextId := by
  induction inputs generalizing st with
  | nil => exact hinv
  | cons ds inputs ih =>
    have hstep : ∀ e ∈ (updateTracking c st ds).1.tracked,
        e.1 < (updateTracking c st ds).1.nextId := by
      intro e he
      obtain ⟨h1, h2⟩ := updateTracking_ids c st ds
      rcases h2 e he with hk | ⟨_, hlt⟩
      · rcases List.mem_map.mp hk with ⟨f, hf, hfk⟩
        exact lt_of_lt_of_le (hfk ▸ hinv f hf) h1
      · exact hlt
    exact ih (updateTracking c st ds).1 hstep

/-! ### At most one crossing event per track per tick -/

/-- Mid-tick invariant for event multiplicity: every id occurs at most once
among this tick's events so far; a track that already produced an event
this tick has `frames_since_crossing = 0` (so it cannot produce another);
ids and event ids stay below `next_id`. -/
def EventInv (acc : TickAcc) : Prop :=
  (∀ id, (acc.2.2.map Prod.fst).count id ≤ 1) ∧
  (∀ id, id ∈ acc.2.2.map Prod.fst → ∀ t, (id, t) ∈ acc.1.tracked → t.sinceCross = 0) ∧
  (∀ e ∈ acc.1.tracked, e.1 < acc.1.nextId) ∧
  (∀ ev ∈ acc.2.2, ev.1 < acc.1.nextId)

theorem eventInv_emit (acc : TickAcc) (id0 : Nat) (t0 : Track)
    (st' : CounterState) (ids' : List Nat) (kk : Kind) (nt : Track)
    (hdb0 : t0.sinceCross ≠ 0)
    (hmem0 : (id0, t0) ∈ acc.1.tracked)
    (k1 : ∀ id, (acc.2.2.map Prod.fst).count id ≤ 1)
    (k2 : ∀ id, id ∈ acc.2.2.map Prod.fst → ∀ t, (id, t) ∈ acc.1.tracked → t.sinceCross = 0)
    (k3 : ∀ e ∈ acc.1.tracked, e.1 < acc.1.nextId)
    (k4 : ∀ ev ∈ acc.2.2, ev.1 < acc.1.nextId)
    (htr : st'.tracked = setTrack acc.1.tracked id0 nt)
    (hnt : nt.sinceCross = 0)
    (hni : st'.nextId = acc.1.nextId) :
    EventInv (st', ids', acc.2.2 ++ [(id0, kk)]) := by
  have hnot : id0 ∉ acc.2.2.map Prod.fst := fun hin => hdb0 (k2 id0 hin t0 hmem0)
  refine ⟨?_, ?_, ?_, ?_⟩
  · intro id
    rw [List.map_append, List.count_append]
    by_cases hii : id = id0
    · subst hii
      have h0 : (acc.2.2.map Prod.fst).count id = 0 := List.count_eq_zero.mpr hnot
      simp [h0]
    · have h1 := k1 id
      have h0 : (([(id0, kk)] : List Event).map Prod.fst).count id = 0 := by
        simp [hii]
      omega
  · intro id hid t ht
    rw [htr] at ht
    rcases mem_setTrack ht with ⟨hold, hne⟩ | hnew
    · have hid' : id ∈ acc.2.2.map Prod.fst := by
        rw [List.map_append, List.mem_append] at hid
        rcases hid with hid | hid
        · exact hid
        · simp only [List.map_cons, List.map_nil, List.mem_singleton] at hid
          exact absurd hid hne
      exact k2 id hid' t hold
    · injection hnew with h5 h6
      rw [h6]
      exact hnt
  · intro e he
    rw [htr] at he
    rw [hni]
    rcases mem_setTrack he with ⟨hold, _⟩ | hnew
    · exact k3 e hold
    · rw [hnew]
      exact k3 (id0, t0) hmem0
  · intro ev hev
    rw [hni]
    rcases List.mem_append.mp hev with hev | hev
    · exact k4 ev hev
    · simp only [List.mem_singleton] at hev
      rw [hev]
      exact k3 (id0, t0) hmem0

theorem eventInv_noemit (acc : TickAcc) (id0 : Nat) (t0 : Track)
    (st' : CounterState) (ids' : List Nat) (nt : Track)
    (hmem0 : (id0, t0) ∈ acc.1.tracked)
    (k2 : ∀ id, id ∈ acc.2.2.map Prod.fst → ∀ t, (id, t) ∈ acc.1.tracked → t.sinceCross = 0)
    (k3 : ∀ e ∈ acc.1.tracked, e.1 < acc.1.nextId)
    (k4 : ∀ ev ∈ acc.2.2, ev.1 < acc.1.nextId)
    (htr : st'.tracked = setTrack acc.1.tracked id0 nt)
    (hnt : nt.sinceCross = t0.sinceCross)
    (hni : st'.nextId = acc.1.nextId)
    (k1 : ∀ id, (acc.2.2.map Prod.fst).count id ≤ 1) :
    EventInv (st', ids', acc.2.2) := by
  refine ⟨k1, ?_, ?_, ?_⟩
  · intro id hid t ht
    rw [htr] at ht
    rcases mem_setTrack ht with ⟨hold, hne⟩ | hnew
    · exact k2 id hid t hold
    · injection hnew with h5 h6
      rw [h6, hnt]
      exact k2 id0 (h5 ▸ hid) t0 hmem0
  · intro e he
    rw [htr] at he
    rw [hni]
    rcases mem_setTrack he with ⟨hold, _⟩ | hnew
    · exact k3 e hold
    · rw [hnew]
      exact k3 (id0, t0) hmem0
  · intro ev hev
    rw [hni]
    exact k4 ev hev

theorem eventInv_step (entryLine : Int) (matchDistance debounceFrames : Nat)
    (acc : TickAcc) (p : Pos) (hdb : 0 < debounceFrames)
    (h : EventInv acc) :
    EventInv (processDetection entryLine matchDistance debounceFrames acc p) := by
  obtain ⟨k1, k2, k3, k4⟩ := h
  cases hm : findMatch acc.1.tracked p matchDistance with
  | none =>
    rw [processDetection_none entryLine matchDistance debounceFrames acc p hm]
    refine ⟨k1, ?_, ?_, ?_⟩
    · intro id hid t ht
      rcases List.mem_append.mp ht with ht | ht
      · exact k2 id hid t ht
      · simp only [List.mem_singleton, Prod.mk.injEq] at ht
        obtain ⟨h5, -⟩ := ht
        exfalso
        rcases List.mem_map.mp hid with ⟨ev, hev, hevk⟩
        have := k4 ev hev
        rw [hevk, h5] at this
        exact absurd this (lt_irrefl _)
    · intro e he
      rcases List.mem_append.mp he with he | he
      · exact lt_trans (k3 e he) (Nat.lt_succ_self _)
      · simp only [List.mem_singleton] at he
        rw [he]
        exact Nat.lt_succ_self _
    · intro ev hev
      exact lt_trans (k4 ev hev) (Nat.lt_succ_self _)
  | some x =>
    obtain ⟨id0, t0⟩ := x
    have hmem0 := (findMatch_some_spec hm).1
    rcases processDetection_match_cases entryLine matchDistance debounceFrames
        acc p id0 t0 hm with ⟨heq, _, _, hcan⟩ | ⟨heq, _, _, hcan⟩ | ⟨heq, _⟩
    · rw [heq]
      exact eventInv_emit acc id0 t0 _ _ Kind.entry _ (by omega) hmem0 k1 k2 k3 k4
        rfl rfl rfl
    · rw [heq]
      exact eventInv_emit acc id0 t0 _ _ Kind.exit _ (by omega) hmem0 k1 k2 k3 k4
        rfl rfl rfl
    · rw [heq]
      exact eventInv_noemit acc id0 t0 _ _ _ hmem0 k2 k3 k4 rfl rfl rfl k1

theorem eventInv_fold (entryLine : Int) (matchDistance debounceFrames : Nat)
    (ds : List Pos) (acc : TickAcc) (hdb : 0 < debounceFrames)
    (h : EventInv acc) :
    EventInv (ds.foldl (processDetection entryLine matchDistance debounceFrames) acc) := by
  induction ds generalizing acc with
  | nil => exact h
  | cons p ds ih =>
    exact ih _ (eventInv_step entryLine matchDistance debounceFrames acc p hdb h)

/-! ### The sentinel invariant: uncounted tracks keep a large counter -/

/-- Mid-tick invariant relative to the events `P` of earlier ticks: a track
for which no crossing event was ever emitted (neither earlier nor so far
this tick) still carries at least the `999` sentinel in
`frames_since_crossing`; ids and event ids stay below `next_id`. -/
def SentinelInv (P : List Event) (acc : TickAcc) : Prop :=
  (∀ id t, (id, t) ∈ acc.1.tracked →
      (∀ k, (id, k) ∉ P ++ acc.2.2) → 999 ≤ t.sinceCross) ∧
  (∀ e ∈ acc.1.tracked, e.1 < acc.1.nextId) ∧
  (∀ ev ∈ P ++ acc.2.2, ev.1 < acc.1.nextId)

theorem sentinelInv_step (P : List Event) (entryLine : Int)
    (matchDistance debounceFrames : Nat) (acc : TickAcc) (p : Pos)
    (h : SentinelInv P acc) :
    SentinelInv P (processDetection entryLine matchDistance debounceFrames acc p) := by
  obtain ⟨s1, s2, s3⟩ := h
  cases hm : findMatch acc.1.tracked p matchDistance with
  | none =>
    rw [processDetection_none entryLine matchDistance debounceFrames acc p hm]
    refine ⟨?_, ?_, ?_⟩
    · intro id t ht hno
      rcases List.mem_append.mp ht with ht | ht
      · exact s1 id t ht hno
      · simp only [List.mem_singleton, Prod.mk.injEq] at ht
        obtain ⟨-, h6⟩ := ht
        rw [h6]
    · intro e he
      rcases List.mem_append.mp he with he | he
      · exact lt_trans (s2 e he) (Nat.lt_succ_self _)
      · simp only [List.mem_singleton] at he
        rw [he]
        exact Nat.lt_succ_self _
    · intro ev hev
      exact lt_trans (s3 ev hev) (Nat.lt_succ_self _)
  | some x =>
    obtain ⟨id0, t0⟩ := x
    have hmem0 := (findMatch_some_spec hm).1
    have emitCase : ∀ (st' : CounterState) (ids' : List Nat) (kk : Kind) (nt : Track),
        st'.tracked = setTrack acc.1.tracked id0 nt →
        st'.nextId = acc.1.nextId →
        SentinelInv P (st', ids', acc.2.2 ++ [(id0, kk)]) := by
      intro st' ids' kk nt htr hni
      refine ⟨?_, ?_, ?_⟩
      · intro id t ht hno
        rw [htr] at ht
        rcases mem_setTrack ht with ⟨hold, hne⟩ | hnew
        · refine s1 id t hold fun k hk => ?_
          refine hno k ?_
          rcases List.mem_append.mp hk with hk | hk
          · exact List.mem_append.mpr (Or.inl hk)
          · exact List.mem_append.mpr (Or.inr (List.mem_append.mpr (Or.inl hk)))
        · exfalso
          injection hnew with h5 h6
          refine hno kk (h5 ▸ ?_)
          exact List.mem_append.mpr (Or.inr (List.mem_append.mpr (Or.inr (by simp))))
      · intro e he
        rw [htr] at he
        rw [hni]
        rcases mem_setTrack he with ⟨hold, _⟩ | hnew
        · exact s2 e hold
        · rw [hnew]
          exact s2 (id0, t0) hmem0
      · intro ev hev
        rw [hni]
        rw [← List.append_assoc] at hev
        rcases List.mem_append.mp hev with hev | hev
        · exact s3 ev hev
        · simp only [List.mem_singleton] at hev
          rw [hev]
          exact s2 (id0, t0) hmem0
    rcases processDetection_match_cases entryLine matchDistance debounceFrames
        acc p id0 t0 hm with ⟨heq, _, _, _⟩ | ⟨heq, _, _, _⟩ | ⟨heq, _⟩
    · rw [heq]
      exact emitCase _ _ Kind.entry _ rfl rfl
    · rw [heq]
      exact emitCase _ _ Kind.exit _ rfl rfl
    · rw [heq]
      refine ⟨?_, ?_, s3⟩
      · intro id t ht hno
        rcases mem_setTrack ht with ⟨hold, hne⟩ | hnew
        · exact s1 id t hold hno
        · injection hnew with h5 h6
          rw [h6]
          exact s1 id0 t0 hmem0 (fun k => h5 ▸ hno k)
      · intro e he
        rcases mem_setTrack he with ⟨hold, _⟩ | hnew
        · exact s2 e hold
        · rw [hnew]
          exact s2 (id0, t0) hmem0

theorem sentinelInv_fold (P : List Event) (entryLine : Int)
    (matchDistance debounceFrames : Nat) (ds : List Pos) (acc : TickAcc)
    (h : SentinelInv P acc) :
    SentinelInv P (ds.foldl (processDetection entryLine matchDistance debounceFrames) acc) := by
  induction ds generalizing acc with
  | nil => exact h
  | cons p ds ih =>
    exact ih _ (sentinelInv_step P entryLine matchDistance debounceFrames acc p h)

/-- Invariant for whole-trace runs: tracks with no crossing event so far
keep the sentinel, and all ids are below `next_id`. -/
def TraceInv (st : CounterState) (evs : List Event) : Prop :=
  (∀ id t, (id, t) ∈ st.tracked → (∀ k, (id, k) ∉ evs) → 999 ≤ t.sinceCross) ∧
  (∀ e ∈ st.tracked, e.1 < st.nextId) ∧
  (∀ ev ∈ evs, ev.1 < st.nextId)

theorem traceInv_tick (c : Config) (st : CounterState) (ds : List Pos)
    (evs : List Event) (h : TraceInv st evs) :
    TraceInv (updateTracking c st ds).1 (evs ++ (updateTracking c st ds).2) := by
  obtain ⟨s1, s2, s3⟩ := h
  have hstart : SentinelInv evs ({ st with tracked := ageTracks st.tracked }, [], []) := by
    refine ⟨?_, ?_, ?_⟩
    · intro id t ht hno
      obtain ⟨u, hu, h6⟩ := mem_ageTracks (e := (id, t)) ht
      have := s1 id u hu (fun k hk => hno k (List.mem_append.mpr (Or.inl hk)))
      have h7 : t.sinceCross = u.sinceCross + 1 := congrArg Track.sinceCross h6
      omega
    · intro e he
      obtain ⟨u, hu, -⟩ := mem_ageTracks he
      exact s2 (e.1, u) hu
    · intro ev hev
      rcases List.mem_append.mp hev with hev | hev
      · exact s3 ev hev
      · simp at hev
  obtain ⟨f1, f2, f3⟩ := sentinelInv_fold evs c.entryLine c.matchDistance
    c.debounceFrames ds ({ st with tracked := ageTracks st.tracked }, [], []) hstart
  refine ⟨?_, ?_, ?_⟩
  · intro id t ht hno
    exact f1 id t (List.mem_filter.mp ht).1 hno
  · intro e he
    exact f2 e (List.mem_filter.mp he).1
  · exact f3

theorem traceInv_run (c : Config) (inputs : List (List Pos)) :
    TraceInv (runTrace c initialState inputs).1 (runTrace c initialState inputs).2 := by
  suffices h : ∀ a : CounterState × List Event, TraceInv a.1 a.2 →
      TraceInv (inputs.foldl
        (fun a ds =>
          let r := updateTracking c a.1 ds
          (r.1, a.2 ++ r.2)) a).1
        (inputs.foldl
          (fun a ds =>
            let r := updateTracking c a.1 ds
            (r.1, a.2 ++ r.2)) a).2 by
    exact h (initialState, []) ⟨by simp [initialState], by simp [initialState], by simp⟩
  induction inputs with
  | nil => exact fun a h => h
  | cons ds inputs ih =>
    intro a h
    exact ih _ (traceInv_tick c a.1 ds a.2 h)

/-! ### Ageing, expiry, and survival across arbitrary ticks -/

theorem processDetection_ids_cons (entryLine : Int)
    (matchDistance debounceFrames : Nat) (acc : TickAcc) (p : Pos) :
    ∃ j, (processDetection entryLine matchDistance debounceFrames acc p).2.1
      = j :: acc.2.1 := by
  cases hm : findMatch acc.1.tracked p matchDistance with
  | some x =>
    obtain ⟨j0, t0⟩ := x
    rcases processDetection_match_cases entryLine matchDistance debounceFrames
        acc p j0 t0 hm with ⟨heq, _⟩ | ⟨heq, _⟩ | ⟨heq, _⟩ <;>
      exact ⟨j0, by rw [heq]⟩
  | none =>
    exact ⟨acc.1.nextId,
      by rw [processDetection_none entryLine matchDistance debounceFrames acc p hm]⟩

/-- A detection that does not bind track `id` leaves every `id`-keyed
registry entry untouched. -/
theorem processDetection_unmatched (entryLine : Int)
    (matchDistance debounceFrames : Nat) (acc : TickAcc) (p : Pos) (id : Nat)
    (h : id ∉ (processDetection entryLine matchDistance debounceFrames acc p).2.1) :
    id ∉ acc.2.1 ∧
    lookupTrack (processDetection entryLine matchDistance debounceFrames acc p).1.tracked id
      = lookupTrack acc.1.tracked id := by
  cases hm : findMatch acc.1.tracked p matchDistance with
  | some x =>
    obtain ⟨j0, t0⟩ := x
    rcases processDetection_match_cases entryLine matchDistance debounceFrames
        acc p j0 t0 hm with ⟨heq, _⟩ | ⟨heq, _⟩ | ⟨heq, _⟩ <;>
    · rw [heq] at h ⊢
      simp only [List.mem_cons, not_or] at h
      exact ⟨h.2, setTrack_lookup_other _ (fun he => h.1 he.symm)⟩
  | none =>
    rw [processDetection_none entryLine matchDistance debounceFrames acc p hm] at h ⊢
    simp only [List.mem_cons, not_or] at h
    exact ⟨h.2, lookupTrack_append_single _ (fun he => h.1 he.symm)⟩

theorem foldIds_mono (entryLine : Int) (matchDistance debounceFrames : Nat)
    (ds : List Pos) (acc : TickAcc) :
    acc.2.1 ⊆ (ds.foldl (processDetection entryLine matchDistance debounceFrames) acc).2.1 := by
  induction ds generalizing acc with
  | nil => exact fun a ha => ha
  | cons p ds ih =>
    intro a ha
    apply ih (processDetection entryLine matchDistance debounceFrames acc p)
    obtain ⟨j, hj⟩ := processDetection_ids_cons entryLine matchDistance debounceFrames acc p
    rw [hj]
    exact List.mem_cons_of_mem j ha

/-- A track that is not in the tick's `current_ids` is never written during
the detection loop: its lookup is unchanged by the whole fold. -/
theorem foldLookup_unmatched (entryLine : Int) (matchDistance debounceFrames : Nat)
    (ds : List Pos) (acc : TickAcc) (id : Nat)
    (h : id ∉ (ds.foldl (processDetection entryLine matchDistance debounceFrames) acc).2.1) :
    lookupTrack
        (ds.foldl (processDetection entryLine matchDistance debounceFrames) acc).1.tracked id
      = lookupTrack acc.1.tracked id ∧ id ∉ acc.2.1 := by
  induction ds generalizing acc with
  | nil => exact ⟨rfl, h⟩
  | cons p ds ih =>
    rw [List.foldl_cons] at h
    obtain ⟨ih1, ih2⟩ := ih (processDetection entryLine matchDistance debounceFrames acc p) h
    obtain ⟨h1, h2⟩ := processDetection_unmatched entryLine matchDistance debounceFrames
      acc p id ih2
    rw [List.foldl_cons]
    exact ⟨by rw [ih1, h2], h1⟩

/-- The detection loop preserves distinctness of registry keys together
with the bound `key < next_id` (fresh tracks take `next_id`, which exceeds
every existing key). -/
theorem foldKeys_inv (entryLine : Int) (matchDistance debounceFrames : Nat)
    (ds : List Pos) (acc : TickAcc)
    (h : ((acc.1.tracked.map Prod.fst).Nodup ∧
          ∀ e ∈ acc.1.tracked, e.1 < acc.1.nextId)) :
    (((ds.foldl (processDetection entryLine matchDistance debounceFrames) acc).1.tracked.map
        Prod.fst).Nodup ∧
     ∀ e ∈ (ds.foldl (processDetection entryLine matchDistance debounceFrames) acc).1.tracked,
       e.1 < (ds.foldl (processDetection entryLine matchDistance debounceFrames) acc).1.nextId) := by
  induction ds generalizing acc with
  | nil => exact h
  | cons p ds ih =>
    rw [List.foldl_cons]
    apply ih
    obtain ⟨hnd, hb⟩ := h
    cases hm : findMatch acc.1.tracked p matchDistance with
    | some x =>
      obtain ⟨j0, t0⟩ := x
      have hmem0 := (findMatch_some_spec hm).1
      have hset : ∀ nt : Track, ((setTrack acc.1.tracked j0 nt).map Prod.fst).Nodup :=
        fun nt => by rw [setTrack_keys]; exact hnd
      have hbset : ∀ (nt : Track), ∀ e ∈ setTrack acc.1.tracked j0 nt,
          e.1 < acc.1.nextId := by
        intro nt e he
        rcases mem_setTrack he with ⟨hold, _⟩ | hnew
        · exact hb e hold
        · rw [hnew]
          exact hb (j0, t0) hmem0
      rcases processDetection_match_cases entryLine matchDistance debounceFrames
          acc p j0 t0 hm with ⟨heq, _⟩ | ⟨heq, _⟩ | ⟨heq, _⟩ <;>
      · rw [heq]
        exact ⟨hset _, fun e he => hbset _ e he⟩
    | none =>
      rw [processDetection_none entryLine matchDistance debounceFrames acc p hm]
      constructor
      · show ((acc.1.tracked
            ++ [(acc.1.nextId, (⟨p, getSide entryLine p.2, 999, 0⟩ : Track))]).map
            Prod.fst).Nodup
        rw [List.map_append]
        refine List.Nodup.append hnd (List.nodup_singleton _) ?_
        intro a ha ha2
        rcases List.mem_map.mp ha with ⟨f, hf, hfk⟩
        simp only [List.map_cons, List.map_nil, List.mem_singleton] at ha2
        have := hb f hf
        rw [hfk, ha2] at this
        exact absurd this (lt_irrefl _)
      · intro e he
        rcases List.mem_append.mp he with he | he
        · exact lt_trans (hb e he) (Nat.lt_succ_self _)
        · simp only [List.mem_singleton] at he
          rw [he]
          exact Nat.lt_succ_self _

theorem tickFold_keys (c : Config) (st : CounterState) (ds : List Pos)
    (hnd : (st.tracked.map Prod.fst).Nodup)
    (hids : ∀ e ∈ st.tracked, e.1 < st.nextId) :
    (((tickFold c st ds).1.tracked.map Prod.fst).Nodup ∧
     ∀ e ∈ (tickFold c st ds).1.tracked, e.1 < (tickFold c st ds).1.nextId) := by
  apply foldKeys_inv
  constructor
  · show ((ageTracks st.tracked).map Prod.fst).Nodup
    rw [ageTracks_keys]
    exact hnd
  · intro e he
    obtain ⟨u, hu, -⟩ := mem_ageTracks he
    exact hids (e.1, u) hu

theorem updateTracking_nodup (c : Config) (st : CounterState) (ds : List Pos)
    (hnd : (st.tracked.map Prod.fst).Nodup)
    (hids : ∀ e ∈ st.tracked, e.1 < st.nextId) :
    (((updateTracking c st ds).1.tracked).map Prod.fst).Nodup := by
  have h := (tickFold_keys c st ds hnd hids).1
  have hsub : ((((updateTracking c st ds).1.tracked).map Prod.fst)).Sublist
      ((tickFold c st ds).1.tracked.map Prod.fst) := by
    rw [updateTracking_eq_tickFold]
    exact (List.filter_sublist _).map Prod.fst
  exact h.sublist hsub

theorem updateTracking_ids_lt (c : Config) (st : CounterState) (ds : List Pos)
    (hids : ∀ e ∈ st.tracked, e.1 < st.nextId) :
    ∀ e ∈ (updateTracking c st ds).1.tracked,
      e.1 < (updateTracking c st ds).1.nextId := by
  intro e he
  obtain ⟨h1, h2⟩ := updateTracking_ids c st ds
  rcases h2 e he with hk | ⟨_, hlt⟩
  · rcases List.mem_map.mp hk with ⟨f, hf, hfk⟩
    exact lt_of_lt_of_le (hfk ▸ hids f hf) h1
  · exact hlt

/-- One tick on which track `id` goes unmatched (its id is not in
`current_ids`, whatever the tick's detections do elsewhere): the track's
two counters are incremented by exactly one, and it is removed exactly when
`frames_not_seen` reaches `MAX_FRAMES_NOT_SEEN`. -/
theorem unmatchedTick_lookup (c : Config) (st : CounterState) (ds : List Pos)
    (id : Nat) (t : Track)
    (hids : ∀ e ∈ st.tracked, e.1 < st.nextId)
    (hnd : (st.tracked.map Prod.fst).Nodup)
    (hlk : lookupTrack st.tracked id = some t)
    (hun : id ∉ tickCurrentIds c st ds) :
    lookupTrack (updateTracking c st ds).1.tracked id
      = if t.notSeen + 1 < c.maxFramesNotSeen
        then some { t with sinceCross := t.sinceCross + 1, notSeen := t.notSeen + 1 }
        else none := by
  have hfold : lookupTrack (tickFold c st ds).1.tracked id
      = some { t with sinceCross := t.sinceCross + 1, notSeen := t.notSeen + 1 } := by
    have h1 := (foldLookup_unmatched c.entryLine c.matchDistance c.debounceFrames ds
        ({ st with tracked := ageTracks st.tracked }, [], []) id hun).1
    have h2 : lookupTrack ({ st with tracked := ageTracks st.tracked } :
        CounterState).tracked id
        = some { t with sinceCross := t.sinceCross + 1, notSeen := t.notSeen + 1 } := by
      show lookupTrack (ageTracks st.tracked) id = _
      rw [lookupTrack_age, hlk]
      rfl
    exact h1.trans h2
  have hnd2 := (tickFold_keys c st ds hnd hids).1
  have h3 := lookup_filter_unique
      (fun e => decide (e.1 ∈ tickCurrentIds c st ds ∨ e.2.notSeen < c.maxFramesNotSeen))
      hnd2 hfold
  have h4 : lookupTrack (updateTracking c st ds).1.tracked id
      = if (decide (id ∈ tickCurrentIds c st ds ∨
            t.notSeen + 1 < c.maxFramesNotSeen)) = true
        then some { t with sinceCross := t.sinceCross + 1, notSeen := t.notSeen + 1 }
        else none := h3
  rw [h4]
  by_cases hlt : t.notSeen + 1 < c.maxFramesNotSeen
  · rw [if_pos (decide_eq_true (Or.inr hlt)), if_pos hlt]
  · have hcond : ¬(id ∈ tickCurrentIds c st ds ∨ t.notSeen + 1 < c.maxFramesNotSeen) :=
      fun hor => hor.elim hun hlt
    rw [if_neg (by simpa using hcond), if_neg hlt]

/-- An id that keys no track and is below `next_id` never reappears in the
registry, over any sequence of ticks. -/
theorem runTicks_lookup_none (c : Config) (inputs : List (List Pos)) :
    ∀ (st : CounterState) (id : Nat),
      (∀ e ∈ st.tracked, e.1 < st.nextId) → id < st.nextId →
      lookupTrack st.tracked id = none →
      lookupTrack (runTicks c st inputs).tracked id = none := by
  induction inputs with
  | nil => exact fun st id _ _ h => h
  | cons ds inputs ih =>
    intro st id hids hlt h
    show lookupTrack (runTicks c (updateTracking c st ds).1 inputs).tracked id = none
    obtain ⟨hm1, hm2⟩ := updateTracking_ids c st ds
    apply ih
    · exact updateTracking_ids_lt c st ds hids
    · exact lt_of_lt_of_le hlt hm1
    · rw [lookupTrack_eq_none] at h ⊢
      intro hmem
      rcases List.mem_map.mp hmem with ⟨f, hf, hfk⟩
      rcases hm2 f hf with hk | ⟨hge, _⟩
      · exact h (hfk ▸ hk)
      · rw [hfk] at hge
        exact absurd hlt (not_lt.mpr hge)

/-- Iterated version: a track that goes unmatched on every tick of `inputs`
ages by one per tick and is present after the run exactly while
`frames_not_seen` stays below `MAX_FRAMES_NOT_SEEN`. -/
theorem unmatchedRun_lookup (c : Config) (inputs : List (List Pos)) :
    ∀ (st : CounterState) (id : Nat) (t : Track),
      (∀ e ∈ st.tracked, e.1 < st.nextId) →
      (st.tracked.map Prod.fst).Nodup →
      lookupTrack st.tracked id = some t →
      (∀ k (hk : k < inputs.length),
        id ∉ tickCurrentIds c (runTicks c st (inputs.take k)) (inputs.get ⟨k, hk⟩)) →
      (t.notSeen + inputs.length < c.maxFramesNotSeen →
        lookupTrack (runTicks c st inputs).tracked id
          = some { t with sinceCross := t.sinceCross + inputs.length,
                          notSeen := t.notSeen + inputs.length }) ∧
      (c.maxFramesNotSeen ≤ t.notSeen + inputs.length → 0 < inputs.length →
        lookupTrack (runTicks c st inputs).tracked id = none) := by
  induction inputs with
  | nil =>
    intro st id t _ _ hlk _
    obtain ⟨tpos, tls, tsc, tns⟩ := t
    refine ⟨fun _ => ?_, fun _ h0 => absurd h0 (lt_irrefl 0)⟩
    show lookupTrack st.tracked id = _
    rw [hlk]
    rfl
  | cons ds inputs ih =>
    intro st id t hids hnd hlk hun
    obtain ⟨tpos, tls, tsc, tns⟩ := t
    have hun0 : id ∉ tickCurrentIds c st ds := hun 0 (Nat.succ_pos _)
    have hstep := unmatchedTick_lookup c st ds id ⟨tpos, tls, tsc, tns⟩ hids hnd hlk hun0
    have hids' := updateTracking_ids_lt c st ds hids
    have hnd' := updateTracking_nodup c st ds hnd hids
    have hun' : ∀ k (hk : k < inputs.length),
        id ∉ tickCurrentIds c (runTicks c (updateTracking c st ds).1 (inputs.take k))
          (inputs.get ⟨k, hk⟩) :=
      fun k hk => hun (k + 1) (Nat.succ_lt_succ hk)
    by_cases hlt : tns + 1 < c.maxFramesNotSeen
    · rw [if_pos hlt] at hstep
      obtain ⟨ha, hb⟩ := ih (updateTracking c st ds).1 id ⟨tpos, tls, tsc + 1, tns + 1⟩
        hids' hnd' hstep hun'
      constructor
      · intro h
        have h' : tns + (inputs.length + 1) < c.maxFramesNotSeen := h
        have hres : lookupTrack
            (runTicks c (updateTracking c st ds).1 inputs).tracked id
            = some ⟨tpos, tls, tsc + 1 + inputs.length, tns + 1 + inputs.length⟩ :=
          ha (by show tns + 1 + inputs.length < _; omega)
        show lookupTrack (runTicks c (updateTracking c st ds).1 inputs).tracked id
          = some ⟨tpos, tls, tsc + (ds :: inputs).length, tns + (ds :: inputs).length⟩
        rw [hres]
        have e1 : tsc + 1 + inputs.length = tsc + (ds :: inputs).length := by
          show _ = tsc + (inputs.length + 1)
          omega
        have e2 : tns + 1 + inputs.length = tns + (ds :: inputs).length := by
          show _ = tns + (inputs.length + 1)
          omega
        rw [e1, e2]
      · intro h hpos
        have h' : c.maxFramesNotSeen ≤ tns + (inputs.length + 1) := h
        show lookupTrack (runTicks c (updateTracking c st ds).1 inputs).tracked id = none
        rcases Nat.eq_zero_or_pos inputs.length with hz | hn
        · exfalso
          omega
        · refine hb ?_ hn
          show c.maxFramesNotSeen ≤ tns + 1 + inputs.length
          omega
    · rw [if_neg hlt] at hstep
      constructor
      · intro h
        have h' : tns + (inputs.length + 1) < c.maxFramesNotSeen := h
        exact absurd h' (by omega)
      · intro _ _
        show lookupTrack (runTicks c (updateTracking c st ds).1 inputs).tracked id = none
        refine runTicks_lookup_none c inputs (updateTracking c st ds).1 id hids' ?_ hstep
        have hmem := lookupTrack_mem hlk
        exact lt_of_lt_of_le (hids (id, ⟨tpos, tls, tsc, tns⟩) hmem)
          (updateTracking_ids c st ds).1

/-- Every id in the tick's `current_ids` (matched or created this tick)
keys a registry entry with `frames_not_seen = 0` throughout the detection
loop. -/
theorem foldCurrent_alive (entryLine : Int) (matchDistance debounceFrames : Nat)
    (ds : List Pos) (acc : TickAcc)
    (h : ∀ j ∈ acc.2.1, ∃ u, (j, u) ∈ acc.1.tracked ∧ u.notSeen = 0) :
    ∀ j ∈ (ds.foldl (processDetection entryLine matchDistance debounceFrames) acc).2.1,
      ∃ u, (j, u) ∈ (ds.foldl (processDetection entryLine matchDistance debounceFrames)
        acc).1.tracked ∧ u.notSeen = 0 := by
  induction ds generalizing acc with
  | nil => exact h
  | cons p ds ih =>
    rw [List.foldl_cons]
    apply ih
    intro j hj
    cases hm : findMatch acc.1.tracked p matchDistance with
    | some x =>
      obtain ⟨j0, t0⟩ := x
      have hmem0 := (findMatch_some_spec hm).1
      have key : ∀ nt : Track, nt.notSeen = 0 →
          j ∈ j0 :: acc.2.1 →
          ∃ u, (j, u) ∈ setTrack acc.1.tracked j0 nt ∧ u.notSeen = 0 := by
        intro nt hn0 hj
        rcases List.mem_cons.mp hj with rfl | hj
        · exact ⟨nt, setTrack_mem_of_mem nt hmem0, hn0⟩
        · obtain ⟨u, hu, hu0⟩ := h j hj
          by_cases hjj : j = j0
          · subst hjj
            exact ⟨nt, setTrack_mem_of_mem nt hu, hn0⟩
          · exact ⟨u, mem_setTrack_of_ne nt hu hjj, hu0⟩
      rcases processDetection_match_cases entryLine matchDistance debounceFrames
          acc p j0 t0 hm with ⟨heq, _⟩ | ⟨heq, _⟩ | ⟨heq, _⟩ <;>
      · rw [heq] at hj ⊢
        exact key _ rfl hj
    | none =>
      rw [processDetection_none entryLine matchDistance debounceFrames acc p hm] at hj ⊢
      rcases List.mem_cons.mp hj with rfl | hj
      · refine ⟨⟨p, getSide entryLine p.2, 999, 0⟩, ?_, rfl⟩
        refine List.mem_append.mpr (Or.inr ?_)
        simp
      · obtain ⟨u, hu, hu0⟩ := h j hj
        exact ⟨u, List.mem_append.mpr (Or.inl hu), hu0⟩

/-- A track matched (or created) during a tick — its id is in
`current_ids` — survives the tick's expiry sweep with
`frames_not_seen = 0`, whatever the rest of the tick's detections do. -/
theorem matchedTick_kept (c : Config) (st : CounterState) (ds : List Pos) (id : Nat)
    (hids : ∀ e ∈ st.tracked, e.1 < st.nextId)
    (hnd : (st.tracked.map Prod.fst).Nodup)
    (hin : id ∈ tickCurrentIds c st ds) :
    ∃ u, lookupTrack (updateTracking c st ds).1.tracked id = some u ∧ u.notSeen = 0 := by
  have halive := foldCurrent_alive c.entryLine c.matchDistance c.debounceFrames ds
      ({ st with tracked := ageTracks st.tracked }, [], [])
      (by intro j hj; exact absurd hj (List.not_mem_nil j)) id hin
  obtain ⟨u, hu, hu0⟩ := halive
  refine ⟨u, ?_, hu0⟩
  have hmemf : (id, u) ∈ (updateTracking c st ds).1.tracked := by
    rw [updateTracking_eq_tickFold]
    exact List.mem_filter.mpr ⟨hu, decide_eq_true (Or.inl hin)⟩
  exact mem_lookupTrack (updateTracking_nodup c st ds hnd hids) hmemf

/-! ### Claim theorems -/

/-- C1: for a track matched to a detection on a tick, the debounced crossing
rule of `update_tracking` (app.py lines 117-143): `bottom` means the y
coordinate is strictly greater than the line; if the stored side differs
from the new side and `frames_since_crossing >= DEBOUNCE_FRAMES`, exactly
one crossing is counted — top→bottom increments `entries`, bottom→top
increments `exits` — and `frames_since_crossing` resets to 0; a side change
failing debounce leaves both counters unchanged; in every case the stored
side and position are updated to this tick's values. -/
theorem C1_crossing_transition (entryLine : Int)
    (matchDistance debounceFrames : Nat) (st : CounterState)
    (ids : List Nat) (evs : List Event) (p : Pos) (id : Nat) (t : Track)
    (r : TickAcc)
    (hr : r = processDetection entryLine matchDistance debounceFrames (st, ids, evs) p)
    (hm : findMatch st.tracked p matchDistance = some (id, t)) :
    (getSide entryLine p.2 = Side.bottom ↔ entryLine < p.2) ∧
    (t.lastSide ≠ getSide entryLine p.2 → debounceFrames ≤ t.sinceCross →
      r.1.entries + r.1.exits = st.entries + st.exits + 1 ∧
      (t.lastSide = Side.top → r.1.entries = st.entries + 1 ∧ r.1.exits = st.exits) ∧
      (t.lastSide = Side.bottom → r.1.exits = st.exits + 1 ∧ r.1.entries = st.entries) ∧
      r.1.tracked = setTrack st.tracked id ⟨p, getSide entryLine p.2, 0, 0⟩) ∧
    (t.lastSide ≠ getSide entryLine p.2 → t.sinceCross < debounceFrames →
      r.1.entries = st.entries ∧ r.1.exits = st.exits ∧
      r.1.tracked = setTrack st.tracked id ⟨p, getSide entryLine p.2, t.sinceCross, 0⟩) ∧
    (t.lastSide = getSide entryLine p.2 →
      r.1.entries = st.entries ∧ r.1.exits = st.exits ∧
      r.1.tracked = setTrack st.tracked id ⟨p, getSide entryLine p.2, t.sinceCross, 0⟩) := by
  subst hr
  have hcases := processDetection_match_cases entryLine matchDistance debounceFrames
    (st, ids, evs) p id t hm
  refine ⟨by by_cases h : entryLine < p.2 <;> simp [getSide, h], ?_, ?_, ?_⟩
  · intro hne hdb
    rcases hcases with ⟨heq, htl, hgs, _⟩ | ⟨heq, htl, hgs, _⟩ | ⟨_, hor⟩
    · rw [heq]
      refine ⟨?_, fun _ => ⟨rfl, rfl⟩, fun hb => ?_, rfl⟩
      · show st.entries + 1 + st.exits = st.entries + st.exits + 1
        omega
      · rw [htl] at hb
        exact absurd hb (by simp)
    · rw [heq]
      refine ⟨?_, fun hb => ?_, fun _ => ⟨rfl, rfl⟩, rfl⟩
      · show st.entries + (st.exits + 1) = st.entries + st.exits + 1
        omega
      · rw [htl] at hb
        exact absurd hb (by simp)
    · rcases hor with hor | hor
      · exact absurd hor hne
      · omega
  · intro hne hlt
    rcases hcases with ⟨_, _, _, hdb⟩ | ⟨_, _, _, hdb⟩ | ⟨heq, _⟩
    · omega
    · omega
    · rw [heq]
      exact ⟨rfl, rfl, rfl⟩
  · intro hsame
    rcases hcases with ⟨_, htl, hgs, _⟩ | ⟨_, htl, hgs, _⟩ | ⟨heq, _⟩
    · rw [htl, hgs] at hsame
      exact absurd hsame (by simp)
    · rw [htl, hgs] at hsame
      exact absurd hsame (by simp)
    · rw [heq]
      exact ⟨rfl, rfl, rfl⟩

/-- Witness for C1: line 240, a track on top at (100, 200) with the
sentinel counter, matched by a detection at (100, 260): the entry is
counted, the counter resets, side and position are stored. -/
theorem C1_crossing_transition_witness :
    (processDetection 240 80 15
        ({ entries := 0, exits := 0,
           tracked := [(0, ⟨(100, 200), Side.top, 999, 1⟩)], nextId := 1 }, [], [])
        (100, 260)).1.entries = 1 ∧
    (processDetection 240 80 15
        ({ entries := 0, exits := 0,
           tracked := [(0, ⟨(100, 200), Side.top, 999, 1⟩)], nextId := 1 }, [], [])
        (100, 260)).1.tracked
      = setTrack [(0, ⟨(100, 200), Side.top, 999, 1⟩)] 0 ⟨(100, 260), Side.bottom, 0, 0⟩ := by
  have h := C1_crossing_transition 240 80 15
      { entries := 0, exits := 0,
        tracked := [(0, ⟨(100, 200), Side.top, 999, 1⟩)], nextId := 1 } [] []
      (100, 260) 0 ⟨(100, 200), Side.top, 999, 1⟩ _ rfl (by decide)
  have hc := h.2.1 (by decide) (by decide)
  exact ⟨by simpa using (hc.2.1 rfl).1, by simpa using hc.2.2.2⟩

/-- C2: each detection (in input order) is matched to a track at minimum
Euclidean distance when that minimum is strictly below `MATCH_DISTANCE`
(compared via squared distances); otherwise a fresh track is created with
the next unused id, the side of the detection, the `999` sentinel and
`frames_not_seen = 0`; a matched track is not removed from the candidate
pool (the key set of the registry is unchanged by a match). -/
theorem C2_greedy_matching (entryLine : Int)
    (matchDistance debounceFrames : Nat) (st : CounterState)
    (ids : List Nat) (evs : List Event) (p : Pos) :
    (∀ id t, findMatch st.tracked p matchDistance = some (id, t) →
      (id, t) ∈ st.tracked ∧
      dist2 p t.position < ((matchDistance : Int)) ^ 2 ∧
      (∀ e ∈ st.tracked, dist2 p t.position ≤ dist2 p e.2.position) ∧
      (processDetection entryLine matchDistance debounceFrames
          (st, ids, evs) p).1.tracked.map Prod.fst = st.tracked.map Prod.fst ∧
      (processDetection entryLine matchDistance debounceFrames
          (st, ids, evs) p).1.nextId = st.nextId) ∧
    (findMatch st.tracked p matchDistance = none →
      (∀ e ∈ st.tracked, ((matchDistance : Int)) ^ 2 ≤ dist2 p e.2.position) ∧
      processDetection entryLine matchDistance debounceFrames (st, ids, evs) p
        = ({ st with
               tracked := st.tracked
                 ++ [(st.nextId, ⟨p, getSide entryLine p.2, 999, 0⟩)],
               nextId := st.nextId + 1 },
           st.nextId :: ids, evs)) := by
  constructor
  · intro id t hm
    obtain ⟨hmem, hlt, hmin⟩ := findMatch_some_spec hm
    refine ⟨hmem, hlt, hmin, ?_, ?_⟩ <;>
      rcases processDetection_match_cases entryLine matchDistance debounceFrames
          (st, ids, evs) p id t hm with ⟨heq, _⟩ | ⟨heq, _⟩ | ⟨heq, _⟩ <;>
        simp [heq, setTrack_keys]
  · intro hm
    exact ⟨findMatch_none_spec hm,
      processDetection_none entryLine matchDistance debounceFrames (st, ids, evs) p hm⟩

/-- Witness for C2: with tracks at (0, 0) and (100, 200), a detection at
(100, 260) matches the nearer track 1 (distance 60 < 80) and leaves the key
set alone, while a detection at (300, 300) (distance > 80 from both) takes
the new-track branch. -/
theorem C2_greedy_matching_witness :
    ((1 : Nat), (⟨(100, 200), Side.top, 999, 1⟩ : Track))
        ∈ [((0 : Nat), (⟨(0, 0), Side.top, 999, 1⟩ : Track)),
           (1, ⟨(100, 200), Side.top, 999, 1⟩)] ∧
    (processDetection 240 80 15
        ({ entries := 0, exits := 0,
           tracked := [(0, ⟨(0, 0), Side.top, 999, 1⟩),
                       (1, ⟨(100, 200), Side.top, 999, 1⟩)], nextId := 2 }, [], [])
        (100, 260)).1.tracked.map Prod.fst = [0, 1] ∧
    processDetection 240 80 15
        ({ entries := 0, exits := 0,
           tracked := [(0, ⟨(0, 0), Side.top, 999, 1⟩),
                       (1, ⟨(100, 200), Side.top, 999, 1⟩)], nextId := 2 }, [], [])
        (300, 300)
      = ({ entries := 0, exits := 0,
           tracked := [(0, ⟨(0, 0), Side.top, 999, 1⟩),
                       (1, ⟨(100, 200), Side.top, 999, 1⟩),
                       (2, ⟨(300, 300), Side.bottom, 999, 0⟩)], nextId := 3 },
         [2], []) := by
  have h1 := (C2_greedy_matching 240 80 15
      { entries := 0, exits := 0,
        tracked := [(0, ⟨(0, 0), Side.top, 999, 1⟩),
                    (1, ⟨(100, 200), Side.top, 999, 1⟩)], nextId := 2 } [] []
      (100, 260)).1 1 ⟨(100, 200), Side.top, 999, 1⟩ (by decide)
  have h2 := (C2_greedy_matching 240 80 15
      { entries := 0, exits := 0,
        tracked := [(0, ⟨(0, 0), Side.top, 999, 1⟩),
                    (1, ⟨(100, 200), Side.top, 999, 1⟩)], nextId := 2 } [] []
      (300, 300)).2 (by decide)
  refine ⟨h1.1, ?_, ?_⟩
  · have := h1.2.2.2.1
    simpa using this
  · have := h2.2
    simpa [getSide] using this

/-- C3: occupancy is derived as `entries - exits` (app.py line 256), at
every tick of every run, admitting negative values (a concrete run from
the initial state yields occupancy `-1`); the dashboard totals (app.py
lines 356-358) are the sums of the per-door counters, and total occupancy
is total entries minus total exits. -/
theorem C3_occupancy_derived (c : Config) (st : CounterState)
    (inputs : List (List Pos)) (doors : List CounterState) :
    occupancy st = (st.entries : Int) - (st.exits : Int) ∧
    occupancy (runTicks c st inputs)
      = ((runTicks c st inputs).entries : Int) - ((runTicks c st inputs).exits : Int) ∧
    totalEntries doors = (doors.map fun d => d.entries).sum ∧
    totalExits doors = (doors.map fun d => d.exits).sum ∧
    totalOccupancy doors = (totalEntries doors : Int) - (totalExits doors : Int) ∧
    occupancy (runTicks codeConfig initialState [[(100, 300)], [(100, 230)]]) = -1 :=
  ⟨rfl, rfl, rfl, rfl, rfl, by decide⟩

/-- C8: `reset` (app.py lines 292-297) zeroes both counters, empties the
track registry and restores `next_id` to the initial id value — from any
state it produces exactly the freshly initialized state. -/
theorem C8_reset_fresh_start (st : CounterState) :
    (resetCounter st).entries = 0 ∧ (resetCounter st).exits = 0 ∧
    (resetCounter st).tracked = [] ∧
    (resetCounter st).nextId = initialState.nextId ∧
    resetCounter st = initialState :=
  ⟨rfl, rfl, rfl, rfl, rfl⟩

/-- C9: tick processing never reads `direction` or `MIN_DISTANCE_FROM_LINE`:
two configurations agreeing on the four attributes the code does read
produce identical states and events on every detection sequence. -/
theorem C9_unused_config_fields (c1 c2 : Config) (st : CounterState)
    (inputs : List (List Pos)) (ds : List Pos)
    (hLine : c1.entryLine = c2.entryLine)
    (hMatch : c1.matchDistance = c2.matchDistance)
    (hDeb : c1.debounceFrames = c2.debounceFrames)
    (hMax : c1.maxFramesNotSeen = c2.maxFramesNotSeen) :
    updateTracking c1 st ds = updateTracking c2 st ds ∧
    runTicks c1 st inputs = runTicks c2 st inputs := by
  have h : ∀ s t, updateTracking c1 s t = updateTracking c2 s t := by
    intro s t
    rw [updateTracking, updateTracking, hLine, hMatch, hDeb, hMax]
  refine ⟨h st ds, ?_⟩
  rw [runTicks, runTicks]
  have hf : (fun s t => (updateTracking c1 s t).1)
      = fun s t => (updateTracking c2 s t).1 := by
    funext s t
    rw [h]
  rw [hf]

/-- Witness for C9: the code configuration versus one differing only in
`direction` and `MIN_DISTANCE_FROM_LINE` processes a crossing scenario
identically. -/
theorem C9_unused_config_fields_witness :
    updateTracking codeConfig initialState [(100, 200), (100, 260)]
      = updateTracking
          { codeConfig with direction := "vertical", minDistanceFromLine := 0 }
          initialState [(100, 200), (100, 260)] ∧
    runTicks codeConfig initialState [[(100, 300)], [(100, 230)]]
      = runTicks { codeConfig with direction := "vertical", minDistanceFromLine := 0 }
          initialState [[(100, 300)], [(100, 230)]] :=
  ⟨(C9_unused_config_fields codeConfig
      { codeConfig with direction := "vertical", minDistanceFromLine := 0 }
      initialState [[(100, 300)], [(100, 230)]] [(100, 200), (100, 260)]
      rfl rfl rfl rfl).1,
   (C9_unused_config_fields codeConfig
      { codeConfig with direction := "vertical", minDistanceFromLine := 0 }
      initialState [[(100, 300)], [(100, 230)]] [(100, 200), (100, 260)]
      rfl rfl rfl rfl).2⟩

/-- C7: track ids are fresh and strictly increasing.  In any state reached
from the initial state, every tracked id is below `next_id`; one more tick
never decreases `next_id`; and every id present after that tick either
already keyed a track before it or is a newly assigned id in
`[next_id, next_id')` — so it is strictly greater than every id ever
assigned before, and an expired id (below an earlier `next_id`) can never
be assigned again. -/
theorem C7_ids_never_reused (c : Config) (inputs : List (List Pos)) (ds : List Pos) :
    (∀ e ∈ (runTicks c initialState inputs).tracked,
        e.1 < (runTicks c initialState inputs).nextId) ∧
    (runTicks c initialState inputs).nextId
      ≤ (updateTracking c (runTicks c initialState inputs) ds).1.nextId ∧
    ∀ e ∈ (updateTracking c (runTicks c initialState inputs) ds).1.tracked,
      e.1 ∈ (runTicks c initialState inputs).tracked.map Prod.fst ∨
        ((runTicks c initialState inputs).nextId ≤ e.1 ∧
         e.1 < (updateTracking c (runTicks c initialState inputs) ds).1.nextId) := by
  obtain ⟨h1, h2⟩ := updateTracking_ids c (runTicks c initialState inputs) ds
  exact ⟨runTicks_ids_lt c initialState inputs (by simp [initialState]), h1, h2⟩

/-- C10: with an empty registry, a tick containing two detections within
`MATCH_DISTANCE` of each other and on opposite sides of the line — first
above, then below — creates one track for the first detection, binds the
second detection to that same track (no second track), and counts the
entry on the track's creation tick thanks to the `999` sentinel. -/
theorem C10_same_tick_binding (c : Config) (st : CounterState) (p1 p2 : Pos)
    (hempty : st.tracked = [])
    (hdist : dist2 p2 p1 < ((c.matchDistance : Int)) ^ 2)
    (h1 : getSide c.entryLine p1.2 = Side.top)
    (h2 : getSide c.entryLine p2.2 = Side.bottom)
    (hdb : c.debounceFrames ≤ 999) :
    updateTracking c st [p1, p2]
      = ({ st with
             entries := st.entries + 1,
             tracked := [(st.nextId, ⟨p2, Side.bottom, 0, 0⟩)],
             nextId := st.nextId + 1 },
         [(st.nextId, Kind.entry)]) := by
  have e1 : processDetection c.entryLine c.matchDistance c.debounceFrames
      ({ st with tracked := ageTracks st.tracked }, [], []) p1
      = ({ st with
             tracked := [(st.nextId, ⟨p1, Side.top, 999, 0⟩)],
             nextId := st.nextId + 1 },
         [st.nextId], []) := by
    have hm : findMatch ({ st with tracked := ageTracks st.tracked } :
        CounterState).tracked p1 c.matchDistance = none := by
      simp [hempty, ageTracks, findMatch]
    have := processDetection_none c.entryLine c.matchDistance c.debounceFrames
        ({ st with tracked := ageTracks st.tracked }, [], []) p1 hm
    rw [this]
    simp [hempty, ageTracks, h1]
  have hm2 : findMatch ([(st.nextId, (⟨p1, Side.top, 999, 0⟩ : Track))]) p2
      c.matchDistance = some (st.nextId, ⟨p1, Side.top, 999, 0⟩) := by
    simp [findMatch, matchStep, hdist]
  have e2 := processDetection_match_cases c.entryLine c.matchDistance c.debounceFrames
      ({ st with
           tracked := [(st.nextId, ⟨p1, Side.top, 999, 0⟩)],
           nextId := st.nextId + 1 },
       [st.nextId], []) p2 st.nextId ⟨p1, Side.top, 999, 0⟩ hm2
  rcases e2 with ⟨heq, _, _, _⟩ | ⟨_, hbl, _, _⟩ | ⟨_, hor⟩
  · rw [updateTracking, updateTrackingCore]
    simp only [List.foldl_cons, List.foldl_nil, e1, heq]
    simp [setTrack, h2]
  · exact absurd hbl (by simp)
  · rcases hor with hor | hor
    · rw [h2] at hor
      exact absurd hor (by simp)
    · exact absurd hdb (by simpa using Nat.not_le_of_lt hor)

/-- C4: a track's first crossing is never suppressed by debounce.  In any
run from the initial state, a track for which no crossing event was ever
emitted still carries at least the `999` creation sentinel in
`frames_since_crossing` (increments only grow it; it is reset only when a
crossing is counted), so whenever `DEBOUNCE_FRAMES ≤ 999` the `can_cross`
test `frames_since_crossing >= DEBOUNCE_FRAMES` holds for it. -/
theorem C4_first_crossing_unblocked (c : Config) (inputs : List (List Pos))
    (id : Nat) (t : Track)
    (hdb : c.debounceFrames ≤ 999)
    (hmem : (id, t) ∈ (runTrace c initialState inputs).1.tracked)
    (hno : ∀ k, (id, k) ∉ (runTrace c initialState inputs).2) :
    999 ≤ t.sinceCross ∧ c.debounceFrames ≤ t.sinceCross := by
  have h := (traceInv_run c inputs).1 id t hmem hno
  exact ⟨h, le_trans hdb h⟩

/-- Witness for C4: after one tick with one detection, the fresh track has
no event and its counter is at least the sentinel, hence at least the code
debounce threshold. -/
theorem C4_first_crossing_unblocked_witness :
    999 ≤ (⟨((0 : Int), (0 : Int)), Side.top, 999, 0⟩ : Track).sinceCross ∧
    codeConfig.debounceFrames ≤ (⟨((0 : Int), (0 : Int)), Side.top, 999, 0⟩ : Track).sinceCross := by
  refine C4_first_crossing_unblocked codeConfig [[(0, 0)]] 0
      ⟨((0 : Int), (0 : Int)), Side.top, 999, 0⟩ (by decide) (by decide) ?_
  intro k hk
  rw [show (runTrace codeConfig initialState [[((0 : Int), (0 : Int))]]).2
      = ([] : List Event) from rfl] at hk
  exact List.not_mem_nil _ hk

/-- C5: expiry timing.  A track last matched now (`frames_not_seen = 0`)
that goes unmatched on every tick of an arbitrary input sequence — its id
never appears in a tick's `current_ids`, whatever else those ticks' other
detections match or create — has both counters incremented once per tick,
survives exactly while the number of such consecutive ticks stays below
`MAX_FRAMES_NOT_SEEN`, and is removed at the end of the tick on which
`frames_not_seen` reaches `MAX_FRAMES_NOT_SEEN`; conversely a track
matched (or created) on a tick is in `current_ids`, so it is never expired
on that tick and ends it with `frames_not_seen = 0`. -/
theorem C5_expiry_after_max_unseen (c : Config) (st : CounterState)
    (id : Nat) (t : Track) (inputs : List (List Pos))
    (hids : ∀ e ∈ st.tracked, e.1 < st.nextId)
    (hnd : (st.tracked.map Prod.fst).Nodup)
    (hlk : lookupTrack st.tracked id = some t)
    (h0 : t.notSeen = 0)
    (hun : ∀ k (hk : k < inputs.length),
      id ∉ tickCurrentIds c (runTicks c st (inputs.take k)) (inputs.get ⟨k, hk⟩)) :
    (inputs.length < c.maxFramesNotSeen →
      lookupTrack (runTicks c st inputs).tracked id
        = some { t with sinceCross := t.sinceCross + inputs.length,
                        notSeen := inputs.length }) ∧
    (c.maxFramesNotSeen ≤ inputs.length → 0 < inputs.length →
      lookupTrack (runTicks c st inputs).tracked id = none) ∧
    (∀ ds, id ∈ tickCurrentIds c st ds →
      ∃ u, lookupTrack (updateTracking c st ds).1.tracked id = some u ∧
        u.notSeen = 0) := by
  obtain ⟨ha, hb⟩ := unmatchedRun_lookup c inputs st id t hids hnd hlk hun
  refine ⟨?_, ?_, fun ds hin => matchedTick_kept c st ds id hids hnd hin⟩
  · intro h
    have h1 := ha (by omega)
    rw [show t.notSeen + inputs.length = inputs.length from by omega] at h1
    exact h1
  · intro h hpos
    exact hb (by omega) hpos

/-- Witness for C5: a track at (100, 100) goes unmatched for two ticks that
each carry a detection at (500, 400) (matching a different track): with the
code configuration it survives with its counters aged by 2; with
`MAX_FRAMES_NOT_SEEN = 2` it is removed at the end of the second such tick;
and on a two-detection tick whose first detection matches it, it survives
with `frames_not_seen = 0`. -/
theorem C5_expiry_after_max_unseen_witness :
    lookupTrack (runTicks codeConfig
        { entries := 0, exits := 0,
          tracked := [(0, ⟨(100, 100), Side.top, 5, 0⟩)], nextId := 1 }
        [[((500 : Int), (400 : Int))], [(500, 400)]]).tracked 0
      = some ⟨(100, 100), Side.top, 7, 2⟩ ∧
    lookupTrack (runTicks { codeConfig with maxFramesNotSeen := 2 }
        { entries := 0, exits := 0,
          tracked := [(0, ⟨(100, 100), Side.top, 5, 0⟩)], nextId := 1 }
        [[((500 : Int), (400 : Int))], [(500, 400)]]).tracked 0 = none ∧
    ∃ u, lookupTrack (updateTracking codeConfig
        { entries := 0, exits := 0,
          tracked := [(0, ⟨(100, 100), Side.top, 5, 0⟩)], nextId := 1 }
        [((100 : Int), (120 : Int)), (500, 400)]).1.tracked 0 = some u ∧
      u.notSeen = 0 := by
  have h1 := C5_expiry_after_max_unseen codeConfig
      { entries := 0, exits := 0,
        tracked := [(0, ⟨(100, 100), Side.top, 5, 0⟩)], nextId := 1 }
      0 ⟨(100, 100), Side.top, 5, 0⟩ [[((500 : Int), (400 : Int))], [(500, 400)]]
      (by decide) (by decide) rfl rfl (by decide)
  have h2 := C5_expiry_after_max_unseen { codeConfig with maxFramesNotSeen := 2 }
      { entries := 0, exits := 0,
        tracked := [(0, ⟨(100, 100), Side.top, 5, 0⟩)], nextId := 1 }
      0 ⟨(100, 100), Side.top, 5, 0⟩ [[((500 : Int), (400 : Int))], [(500, 400)]]
      (by decide) (by decide) rfl rfl (by decide)
  refine ⟨?_, h2.2.1 (by decide) (by decide),
    h1.2.2 [((100 : Int), (120 : Int)), (500, 400)] (by decide)⟩
  have := h1.1 (by decide)
  simpa using this

/-- C6: in one call of `update_tracking`, at most one crossing event is
emitted per track, even when several detections of the tick bind to the
same track — once a crossing is counted, `frames_since_crossing` is 0 and
the (positive) debounce threshold blocks any further count this tick. -/
theorem C6_one_event_per_track_per_tick (c : Config) (st : CounterState)
    (ds : List Pos) (id : Nat)
    (hdb : 0 < c.debounceFrames)
    (hids : ∀ e ∈ st.tracked, e.1 < st.nextId) :
    (((updateTracking c st ds).2).map Prod.fst).count id ≤ 1 := by
  have hinit : EventInv ({ st with tracked := ageTracks st.tracked }, [], []) := by
    refine ⟨by simp, by simp, ?_, by simp⟩
    intro e he
    obtain ⟨u, hu, -⟩ := mem_ageTracks he
    exact hids (e.1, u) hu
  have h := eventInv_fold c.entryLine c.matchDistance c.debounceFrames ds
      ({ st with tracked := ageTracks st.tracked }, [], []) hdb hinit
  exact h.1 id

/-- Witness for C6: a tick with three detections, where the second causes a
counted entry and the third is a matched side change suppressed by
debounce: the track's events this tick number at most one. -/
theorem C6_one_event_per_track_per_tick_witness :
    (((updateTracking codeConfig initialState
        [((100 : Int), (200 : Int)), (100, 260), (100, 200)]).2).map Prod.fst).count 0 ≤ 1 :=
  C6_one_event_per_track_per_tick codeConfig initialState
    [((100 : Int), (200 : Int)), (100, 260), (100, 200)] 0 (by decide) (by decide)

/-- Witness for C10: two detections in one tick from the empty initial
state, at (100, 200) then (100, 260) with the line at 240: one track,
one counted entry on the creation tick. -/
theorem C10_same_tick_binding_witness :
    updateTracking codeConfig initialState [((100 : Int), (200 : Int)), (100, 260)]
      = ({ entries := 1, exits := 0,
           tracked := [(0, ⟨(100, 260), Side.bottom, 0, 0⟩)], nextId := 1 },
         [(0, Kind.entry)]) := by
  have h := C10_same_tick_binding codeConfig initialState (100, 200) (100, 260)
      rfl (by decide) (by decide) (by decide) (by decide)
  simpa using h

end FireSafety
